import Mathlib

/-!
# Verification of the Breact.js rendering core

A shallow embedding, in Lean 4, of the rendering core of the Breact.js
repository: the hooks engine (`src/shared/hooks.ts`), the DOM backend
(`src/client/dom.ts`) and the SSR backend (`src/server/ssr.ts`), together
with theorems settling the specification claims about them.

JavaScript values that the engine compares with `!==`, stores in hook
slots, or stringifies are modelled by the inductive type `JSVal`;
machine-level object identity is modelled by an explicit numeric id on
functions and opaque objects, so strict equality corresponds to
decidable equality of `JSVal`.
-/

namespace Breact

/-- A JavaScript value as manipulated by the framework: `undefined`,
`null`, numbers (the code never exercises fractional arithmetic, so `Int`
suffices), strings, functions (by identity id) and opaque objects (by
identity id).  `styleObj` models a plain object used as a style bag, with
its field list. -/
inductive JSVal where
  | undef
  | jsNull
  | num (n : Int)
  | str (s : String)
  | fn (id : Nat)
  | obj (id : Nat)
  | styleObj (fields : List (String × String))
deriving DecidableEq, Repr

/-- JavaScript truthiness of a `JSVal` (`undefined`, `null`, `0`, `""`
are falsy; all objects and functions are truthy). -/
def JSVal.truthy : JSVal → Bool
  | .undef => false
  | .jsNull => false
  | .num n => n != 0
  | .str s => s != ""
  | .fn _ => true
  | .obj _ => true
  | .styleObj _ => true

/-- JavaScript `String(v)` / template-literal stringification. -/
def JSVal.toStr : JSVal → String
  | .undef => "undefined"
  | .jsNull => "null"
  | .num n => toString n
  | .str s => s
  | .fn _ => "function"
  | .obj _ => "[object Object]"
  | .styleObj _ => "[object Object]"

/-- `s.startsWith(pre)`, computed on the character list (the
byte-position implementation of `String.startsWith` is opaque to kernel
reduction; this is the same function). -/
def jsStartsWith (s pre : String) : Bool :=
  pre.data.isPrefixOf s.data

/-- `s.substring(n).toLowerCase()`, computed on the character list. -/
def dropToLower (s : String) (n : Nat) : String :=
  ((s.data.drop n).map Char.toLower).asString

/-- `typeof v === "object"` (note: `typeof null` is `"object"` in JS). -/
def JSVal.isObjectType : JSVal → Bool
  | .jsNull => true
  | .obj _ => true
  | .styleObj _ => true
  | _ => false

/-! ## Hook slots (`src/shared/hooks.ts`)

An element's `hooks` array is heterogeneous in the source: `useState`
stores the raw value at its slot, `useWatch` / `useWatchEffect` store a
record `{deps?, effect, cleanup?, pending}`.  Effects and cleanups are
functions, kept by identity id. -/

/-- The record stored by `useWatch`/`useWatchEffect`:
`{deps?, effect, cleanup?, pending}` (`deps` is absent for
`useWatchEffect` slots). -/
structure WatchHook where
  deps : Option (List JSVal)
  effect : Nat
  cleanup : Option Nat
  pending : Bool
deriving DecidableEq, Repr

/-- One entry of an element's `hooks` array. -/
inductive HookSlot where
  | state (v : JSVal)
  | watch (w : WatchHook)
deriving DecidableEq, Repr

/-- The raw JS value sitting at a hook slot, as read by `setState`'s
`hooks[idx]`.  A watch slot holds a record object; we expose it as an
opaque object whose identity is its effect id (only its truthiness and
non-equality to primitives matter to the code paths modelled here). -/
def HookSlot.rawVal : HookSlot → JSVal
  | .state v => v
  | .watch w => .obj w.effect

/-- `hooks[idx] = slot` for a JS array: in-range writes update, a write at
`length` appends, a write past the end leaves `undefined` holes. -/
def putSlot (hooks : List HookSlot) (idx : Nat) (s : HookSlot) : List HookSlot :=
  if idx < hooks.length then hooks.set idx s
  else hooks ++ List.replicate (idx - hooks.length) (.state .undef) ++ [s]

/-- Argument to a `useState` setter: a direct value, or an updater
function applied to the currently stored value
(`val instanceof Function ? val(currentValue) : val`). -/
inductive SetArg where
  | value (v : JSVal)
  | updater (f : JSVal → JSVal)

/-- The setter closure built by `useState` (src/shared/hooks.ts:62-69):
read `hooks[idx]`, compute the candidate value, and iff it differs
(`!==`) from the stored one, store it and call `markNeedsBuild()` on the
owning element.  Returns the updated hooks array and the number of
`markNeedsBuild` calls made. -/
def setState (hooks : List HookSlot) (idx : Nat) (arg : SetArg) :
    List HookSlot × Nat :=
  let currentValue := (hooks.getD idx (.state .undef)).rawVal
  let newValue := match arg with
    | .value v => v
    | .updater f => f currentValue
  if currentValue ≠ newValue then
    (putSlot hooks idx (.state newValue), 1)
  else
    (hooks, 0)

/-! ## Hook calls during a render pass

A component's `render` body performs a sequence of hook calls; the
engine dispatches each against the active element's slot array at the
cursor position (`getHookIndex` increments the cursor per call). -/

/-- One hook invocation as it occurs inside a `render` body. -/
inductive HookCall where
  | hState (init : JSVal)
  | hWatch (effect : Nat) (deps : List JSVal)
  | hWatchEffect (effect : Nat)
deriving Repr

/-- JS truthiness of `oldHook` (`hooks[idx]`): out of range reads give
`undefined` (falsy); a state slot holds its raw value; a watch slot is a
record object, hence truthy. -/
def oldHookTruthy : Option HookSlot → Bool
  | none => false
  | some (.state v) => v.truthy
  | some (.watch _) => true

/-- `oldHook.deps`: present only on watch slots that stored one. -/
def oldHookDeps : Option HookSlot → Option (List JSVal)
  | some (.watch w) => w.deps
  | _ => none

/-- `oldHook?.cleanup`: present only on watch slots. -/
def oldHookCleanup : Option HookSlot → Option Nat
  | some (.watch w) => w.cleanup
  | _ => none

/-- `deps.some((d, i) => d !== oldHook.deps![i])` — element-wise strict
inequality over the indices of the NEW list, out-of-range reads of the
old list giving `undefined`. -/
def depsDiffer (deps oldDeps : List JSVal) : Bool :=
  (List.range deps.length).any
    (fun i => deps.getD i .undef != oldDeps.getD i .undef)

/-- `useWatch(effect, deps)` (src/shared/hooks.ts:82-95): read
`oldHook = hooks[idx]`; `hasChanged` iff the slot is absent/falsy, or it
has no stored `deps`, or some entry of the new list differs from the
stored entry at the same index; if changed, store
`{deps, effect, cleanup: oldHook?.cleanup, pending: true}`, else write
back the unchanged slot. -/
def useWatchStep (hooks : List HookSlot) (idx : Nat) (effect : Nat)
    (deps : List JSVal) : List HookSlot :=
  let oldHook := hooks.get? idx
  let hasChanged := !oldHookTruthy oldHook
    || (oldHookDeps oldHook).isNone
    || depsDiffer deps ((oldHookDeps oldHook).getD [])
  if hasChanged then
    putSlot hooks idx (.watch ⟨some deps, effect, oldHookCleanup oldHook, true⟩)
  else
    hooks

/-- `useWatchEffect(effect)` (src/shared/hooks.ts:98-105): always replace
the slot with `{effect, cleanup: oldHook?.cleanup, pending: true}` (no
deps stored). -/
def useWatchEffectStep (hooks : List HookSlot) (idx : Nat) (effect : Nat) :
    List HookSlot :=
  let oldHook := hooks.get? idx
  putSlot hooks idx (.watch ⟨none, effect, oldHookCleanup oldHook, true⟩)

/-- `useState(init)`'s slot initialisation (src/shared/hooks.ts:58-60):
`if (hooks.length <= idx) hooks[idx] = initialValue`. -/
def useStateStep (hooks : List HookSlot) (idx : Nat) (init : JSVal) :
    List HookSlot :=
  if hooks.length ≤ idx then putSlot hooks idx (.state init) else hooks

/-- Process the hook calls of one `render` body in order against the
active element's slot array, the cursor starting at `idx`
(`setActiveElement` resets it to 0 before a render). -/
def processHooks : List HookCall → List HookSlot → Nat → List HookSlot
  | [], hooks, _ => hooks
  | c :: rest, hooks, idx =>
    let hooks' := match c with
      | .hState init => useStateStep hooks idx init
      | .hWatch eff deps => useWatchStep hooks idx eff deps
      | .hWatchEffect eff => useWatchEffectStep hooks idx eff
    processHooks rest hooks' (idx + 1)

/-! ## The global hook engine (`setActiveElement` / `getActiveElement`)

`currentElement` and `hookIndex` are module-level state in
`src/shared/hooks.ts`; hook functions begin by resolving the active
element (`getActiveElement`, which throws when none is registered) before
touching any slot. -/

/-- The message thrown by `getActiveElement` when no element is active
(src/shared/hooks.ts:21-27), abbreviated to its identifying prefix. -/
def invalidHookMsg : String := "Hook called outside of render()"

/-- Global hook-engine state: the active element pointer, the call-order
cursor, and each element's hook-slot array (elements keyed by id). -/
structure Engine where
  active : Option Nat
  hookIndex : Nat
  hooksOf : List (Nat × List HookSlot)
deriving DecidableEq, Repr

/-- Look up an element's hooks array (created empty on first access by
`getHookState`). -/
def Engine.lookupHooks (e : Engine) (el : Nat) : List HookSlot :=
  ((e.hooksOf.find? (fun p => p.1 == el)).map Prod.snd).getD []

/-- Store back an element's hooks array. -/
def Engine.storeHooks (e : Engine) (el : Nat) (hs : List HookSlot) : Engine :=
  { e with hooksOf :=
      if e.hooksOf.any (fun p => p.1 == el) then
        e.hooksOf.map (fun p => if p.1 == el then (el, hs) else p)
      else
        e.hooksOf ++ [(el, hs)] }

/-- `useState(init)` as a whole engine transition: `getActiveElement()`
is its first statement, so with no active element it throws at once and
the engine (in particular, every element's slot array) is untouched;
otherwise it initialises the slot if absent and returns the stored value.
The result is the read value (the setter's behaviour is `setState`). -/
def useStateCall (e : Engine) (init : JSVal) :
    Except String JSVal × Engine :=
  match e.active with
  | none => (.error invalidHookMsg, e)
  | some el =>
    let hooks := e.lookupHooks el
    let idx := e.hookIndex
    let hooks' := useStateStep hooks idx init
    let value := (hooks'.getD idx (.state .undef)).rawVal
    (.ok value, { e.storeHooks el hooks' with hookIndex := idx + 1 })

/-- `useWatch(effect, deps)` as a whole engine transition;
`getHookState()` calls `getActiveElement()` first, so with no active
element it throws before any slot is read or written. -/
def useWatchCall (e : Engine) (effect : Nat) (deps : List JSVal) :
    Except String Unit × Engine :=
  match e.active with
  | none => (.error invalidHookMsg, e)
  | some el =>
    let hooks := e.lookupHooks el
    let idx := e.hookIndex
    let hooks' := useWatchStep hooks idx effect deps
    (.ok (), { e.storeHooks el hooks' with hookIndex := idx + 1 })

/-- `useWatchEffect(effect)` as a whole engine transition; throws before
any slot access when no element is active. -/
def useWatchEffectCall (e : Engine) (effect : Nat) :
    Except String Unit × Engine :=
  match e.active with
  | none => (.error invalidHookMsg, e)
  | some el =>
    let hooks := e.lookupHooks el
    let idx := e.hookIndex
    let hooks' := useWatchEffectStep hooks idx effect
    (.ok (), { e.storeHooks el hooks' with hookIndex := idx + 1 })

/-! ## Deferred rebuild scheduling (`DOMElement.markNeedsBuild`,
src/client/dom.ts:202-213)

`markNeedsBuild` interacts with the element's `dirty` flag and the
platform microtask queue; we model the element's scheduling state by its
dirty flag, the number of microtask closures it has queued, and a count
of `performRebuild` invocations (the closure body is
`if (this.dirty) { this.dirty = false; this.performRebuild(); }`). -/

/-- The scheduling state of one element: its `dirty` flag, how many of
its microtask closures are queued and not yet run, and how many times
`performRebuild` has been invoked by those closures. -/
structure SchedState where
  dirty : Bool
  pendingTasks : Nat
  rebuilds : Nat
deriving DecidableEq, Repr

/-- `markNeedsBuild()`: if not dirty, set `dirty` and queue exactly one
microtask; otherwise do nothing. -/
def markNeedsBuild (s : SchedState) : SchedState :=
  if !s.dirty then
    { s with dirty := true, pendingTasks := s.pendingTasks + 1 }
  else s

/-- Run one queued microtask closure (no-op when none is queued): if the
element is still dirty, clear `dirty` and invoke `performRebuild` once;
otherwise the closure does nothing. -/
def runMicrotask (s : SchedState) : SchedState :=
  match s.pendingTasks with
  | 0 => s
  | n + 1 =>
    let s' := { s with pendingTasks := n }
    if s'.dirty then
      { s' with dirty := false, rebuilds := s'.rebuilds + 1 }
    else s'

/-- Drain the microtask queue: run every queued closure, in order, after
the synchronous turn has unwound. -/
def drainMicrotasks (s : SchedState) : SchedState :=
  runMicrotask^[s.pendingTasks] s

/-! ## Components and children (`src/shared/component.ts`)

`Child = Component | string | number | null | undefined | Child[]`.
An `HTMLComponent` carries a tag, a prop bag and a resolved child list;
its `render` returns the child list.  A generic (user-defined) Component
is modelled by its constructor identity, its `key`, the hook calls its
`render` body makes, and the `Child` its `render` returns (renders are
pure functions of the component's own fields). -/

mutual
/-- A Component description: an HTML-tag component (`HTMLComponent`) or
a generic user component given by constructor id, key, the hook calls of
its `render` body, and its render result. -/
inductive Component where
  | html (tag : String) (props : List (String × JSVal)) (key : JSVal)
      (children : List Child)
  | generic (ctor : Nat) (key : JSVal) (hookCalls : List HookCall)
      (result : Child)

/-- The recursive render-result union. -/
inductive Child where
  | comp (c : Component)
  | str (s : String)
  | num (n : Int)
  | jsNull
  | undef
  | arr (xs : List Child)
end

/-- The `HTMLComponent` constructor: `super((props as any).key)` extracts
`key` from the prop bag (leaving the bag itself untouched). -/
def HTMLComponent (tag : String) (props : List (String × JSVal))
    (children : List Child) : Component :=
  .html tag props
    (((props.find? (fun p => p.1 == "key")).map Prod.snd).getD .undef)
    children

/-- One `render` call (`component.render(context)`), together with the
hook processing it performs against the active element's slot array
(cursor reset to 0 by `setActiveElement`): `HTMLComponent.render` returns
its child list and makes no hook calls; a generic component's render
processes its hook calls and returns its result.  Primitives and other
non-Component values have no `render` method, so invoking it throws. -/
def renderBody : Component → List HookSlot → Child × List HookSlot
  | .html _ _ _ cs, hooks => (.arr cs, hooks)
  | .generic _ _ calls result, hooks => (result, processHooks calls hooks 0)

/-- `.flat()` — JavaScript's one-level array flatten, as used by both
backends (src/client/dom.ts:90, src/server/ssr.ts:68). -/
def flattenOne : List Child → List Child
  | [] => []
  | .arr xs :: rest => xs ++ flattenOne rest
  | c :: rest => c :: flattenOne rest

/-- `(c) => c !== null && c !== undefined` — the child filter. -/
def childKeep : Child → Bool
  | .jsNull => false
  | .undef => false
  | _ => true

/-- Normalization of a render result, exactly as both backends perform
it: wrap a non-array result into a singleton list, apply ONE level of
`.flat()`, drop `null`/`undefined`. -/
def normalizeResult (r : Child) : List Child :=
  (flattenOne (match r with | .arr xs => xs | c => [c])).filter childKeep

mutual
/-- Modelled from the spec: full recursive flattening of a child list
("flatten nested arrays arbitrarily deep, drop `null`/`undefined`") —
the normalization the specification describes, used as the comparison
side for the flattening claim.  No function in the source performs this;
the source uses one-level `flattenOne`. -/
def flattenDeep : List Child → List Child
  | [] => []
  | c :: rest => flattenDeepChild c ++ flattenDeep rest

/-- Modelled from the spec: deep flattening of one child (see
`flattenDeep`). -/
def flattenDeepChild : Child → List Child
  | .arr xs => flattenDeep xs
  | .jsNull => []
  | .undef => []
  | c => [c]
end

/-! ## SSR backend (`src/server/ssr.ts`)

`SSRElement.toString` walks the component tree depth-first building a
string.  Observable side effects of effect bodies / cleanups are
modelled by logs threaded through the traversal; the SSR code contains
no call that would append to them. -/

/-- Runtime faults: fuel exhaustion of the embedding (modelling
non-termination) and JavaScript `TypeError`s the code can throw. -/
inductive RErr where
  | fuelOut
  | typeError (msg : String)
deriving DecidableEq, Repr

/-- Observable effect-execution state threaded through a serialization:
which effect bodies and cleanup functions have been invoked. -/
structure SSRState where
  effectLog : List Nat
  cleanupLog : List Nat
deriving DecidableEq, Repr

/-- Modelled from the spec: the external `style-object-to-css-string`
dependency (not part of src/) — camelCase identifiers are converted to
kebab-case. -/
def camelToKebab (s : String) : String :=
  String.join (s.toList.map (fun c =>
    if c.isUpper then "-" ++ String.singleton c.toLower
    else String.singleton c))

/-- Modelled from the spec: the external `style-object-to-css-string`
dependency — a style bag becomes a semicolon-joined `key:value` CSS
string with camelCase keys converted to kebab-case. -/
def styleToCss (fields : List (String × String)) : String :=
  String.intercalate ";" (fields.map (fun p => camelToKebab p.1 ++ ":" ++ p.2))

/-- Serialization of one prop to an attribute chunk
(src/server/ssr.ts:78-92): `className` becomes `class="…"`; keys
beginning with `on` and the key `children` yield nothing; `style` with an
object value becomes a CSS string (nothing otherwise); every other key —
including `key` — becomes `key="value"` with the value stringified. -/
def ssrAttr (k : String) (v : JSVal) : String :=
  if k = "className" then "class=\"" ++ v.toStr ++ "\""
  else if jsStartsWith k "on" then ""
  else if k = "children" then ""
  else if k = "style" then
    match v with
    | .styleObj fields =>
      let css := styleToCss fields
      if css = "" then "" else "style=\"" ++ css ++ "\""
    | _ => ""
  else k ++ "=\"" ++ v.toStr ++ "\""

/-- The full attribute string: prop chunks in bag order, empty chunks
filtered out (`.filter(Boolean)`), joined by single spaces. -/
def ssrAttrs (props : List (String × JSVal)) : String :=
  String.intercalate " "
    ((props.map (fun p => ssrAttr p.1 p.2)).filter (fun s => s ≠ ""))

/-- Serialize a list of children in order, concatenating the results
(`.map((c) => el.toString()).join("")`), threading the effect state. -/
def joinRender (f : Child → SSRState → Except RErr (String × SSRState)) :
    List Child → SSRState → Except RErr (String × SSRState)
  | [], s => .ok ("", s)
  | c :: rest, s =>
    match f c s with
    | .error e => .error e
    | .ok (out, s') =>
      match joinRender f rest s' with
      | .error e => .error e
      | .ok (out2, s'') => .ok (out ++ out2, s'')

/-- `SSRElement.toString` (src/server/ssr.ts:47-100): primitives
stringify directly; a Component's render result is normalized and each
child serialized by a fresh `SSRElement` (fresh empty hooks array); an
HTML-tag component wraps its serialized children in its tag with its
serialized attributes; any other value (an array, `null`, `undefined`)
reaching a component position has no `render` method, so the call
throws.  Fuel bounds the recursion depth of the embedding only. -/
def ssrToString : Nat → Child → SSRState → Except RErr (String × SSRState)
  | 0, _, _ => .error .fuelOut
  | fuel + 1, c, s =>
    match c with
    | .str t => .ok (t, s)
    | .num n => .ok (toString n, s)
    | .comp k =>
      let (result, _hooks) := renderBody k []
      match joinRender (ssrToString fuel) (normalizeResult result) s with
      | .error e => .error e
      | .ok (out, s') =>
        match k with
        | .html tag props _ _ =>
          let attrs := ssrAttrs props
          .ok ("<" ++ tag ++ (if attrs = "" then "" else " " ++ attrs)
                ++ ">" ++ out ++ "</" ++ tag ++ ">", s')
        | _ => .ok (out, s')
    | .arr _ => .error (.typeError "this.component.render is not a function")
    | .jsNull => .error (.typeError "Cannot read properties of null")
    | .undef => .error (.typeError "Cannot read properties of undefined")

/-- `renderToString(component)` — a fresh root `SSRElement`'s
`toString`, starting from a given effect-observation state. -/
def renderToString (fuel : Nat) (c : Component) (s : SSRState) :
    Except RErr (String × SSRState) :=
  ssrToString fuel (.comp c) s

/-! ## DOM backend (`src/client/dom.ts`)

Native DOM nodes live in a global store keyed by numeric identity; a
node is either an element node (with tag, listeners, style, className
and attributes) or a text node.  The root render container is a
distinguished parent.  `DOMElement`s form a tree owning hook slots, an
optional native node and child elements. -/

/-- Where a native node is attached: inside another node, inside the
root render container, or nowhere. -/
inductive NodeParent where
  | pnode (id : Nat)
  | root
  | detached
deriving DecidableEq, Repr

/-- A native DOM node: `tag = none` for text nodes.  Listener
attachments are an append list (`addEventListener` stacks); style fields
and attributes are upsert maps; `className` is a direct property
assignment. -/
structure NNode where
  tag : Option String
  text : String
  listeners : List (String × Nat)
  style : List (String × String)
  className : Option JSVal
  attrs : List (String × String)
  childNodes : List Nat
  parent : NodeParent
deriving DecidableEq, Repr

/-- A container reference usable as an insertion target (the root render
container or an element node). -/
inductive CRef where
  | root
  | node (id : Nat)
deriving DecidableEq, Repr

/-- `CRef` as a `NodeParent`. -/
def CRef.toParent : CRef → NodeParent
  | .root => .root
  | .node i => .pnode i

/-- The mutable DOM world: the node store, the root container's child
list, fresh-id counters for nodes and elements, the observable effect /
cleanup invocation logs, and the (finite) table of which cleanup
function each effect body returns. -/
structure Dom where
  nodes : List (Nat × NNode)
  rootChildren : List Nat
  nextNodeId : Nat
  nextEid : Nat
  effectLog : List Nat
  cleanupLog : List Nat
  effectRet : List (Nat × Nat)
deriving DecidableEq, Repr

/-- The empty DOM world. -/
def Dom.empty : Dom := ⟨[], [], 0, 0, [], [], []⟩

/-- Node lookup by id. -/
def Dom.getNode (d : Dom) (i : Nat) : Option NNode :=
  (d.nodes.find? (fun p => p.1 = i)).map Prod.snd

/-- Node replacement by id. -/
def Dom.setNode (d : Dom) (i : Nat) (n : NNode) : Dom :=
  { d with nodes := d.nodes.map (fun p => if p.1 = i then (i, n) else p) }

/-- Allocate a fresh node, returning its id. -/
def Dom.addNode (d : Dom) (n : NNode) : Nat × Dom :=
  (d.nextNodeId,
   { d with nodes := d.nodes ++ [(d.nextNodeId, n)],
            nextNodeId := d.nextNodeId + 1 })

/-- The ordered child list of a container. -/
def Dom.childListOf (d : Dom) : CRef → List Nat
  | .root => d.rootChildren
  | .node i => ((d.getNode i).map NNode.childNodes).getD []

/-- Replace the ordered child list of a container. -/
def Dom.setChildListOf (d : Dom) (c : CRef) (l : List Nat) : Dom :=
  match c with
  | .root => { d with rootChildren := l }
  | .node i =>
    match d.getNode i with
    | some n => d.setNode i { n with childNodes := l }
    | none => d

/-- `parentNode.removeChild(node)` / the implicit detach performed by a
DOM insertion of an already-attached node: remove the node from its
parent's child list and mark it detached (no-op when not attached). -/
def Dom.detach (d : Dom) (nid : Nat) : Dom :=
  match d.getNode nid with
  | none => d
  | some n =>
    match n.parent with
    | .detached => d
    | .root =>
      let d := { d with rootChildren := d.rootChildren.filter (fun x => x ≠ nid) }
      d.setNode nid { n with parent := .detached }
    | .pnode p =>
      let d := match d.getNode p with
        | some pn =>
          d.setNode p { pn with childNodes := pn.childNodes.filter (fun x => x ≠ nid) }
        | none => d
      d.setNode nid { n with parent := .detached }

/-- `container.appendChild(node)`. -/
def Dom.appendChild (d : Dom) (c : CRef) (nid : Nat) : Dom :=
  let d := d.detach nid
  let d := d.setChildListOf c (d.childListOf c ++ [nid])
  match d.getNode nid with
  | some n => d.setNode nid { n with parent := c.toParent }
  | none => d

/-- Insert `x` immediately before the first occurrence of `ref`. -/
def insertBeforeList (l : List Nat) (x ref : Nat) : List Nat :=
  match l with
  | [] => []
  | y :: rest =>
    if y = ref then x :: y :: rest else y :: insertBeforeList rest x ref

/-- `container.insertBefore(node, ref)`: a `NotFoundError` when `ref` is
not a child of the container, otherwise insert before it. -/
def Dom.insertBeforeNode (d : Dom) (c : CRef) (nid ref : Nat) :
    Except RErr Dom :=
  if (d.childListOf c).contains ref then
    let d := d.detach nid
    let d := d.setChildListOf c (insertBeforeList (d.childListOf c) nid ref)
    match d.getNode nid with
    | some n => .ok (d.setNode nid { n with parent := c.toParent })
    | none => .ok d
  else .error (.typeError "NotFoundError: insertBefore")

/-- `document.createElement(tag)`, detached and empty. -/
def freshElemNode (tag : String) : NNode :=
  ⟨some tag, "", [], [], none, [], [], .detached⟩

/-- `document.createTextNode(s)`, detached. -/
def freshTextNode (s : String) : NNode :=
  ⟨none, s, [], [], none, [], [], .detached⟩

/-- Application of one prop to a native node
(src/client/dom.ts:64-75): an `on`-prefixed key with a function value
attaches a listener under the lower-cased remainder of the key; the key
`style` with an object value copies each style field individually
(`Object.assign`); the key `className` assigns the class-name property;
every other key is set as a stringified attribute — including `key`. -/
def applyProp (n : NNode) (k : String) (v : JSVal) : NNode :=
  if jsStartsWith k "on" && (match v with | .fn _ => true | _ => false) then
    { n with listeners := n.listeners ++
        [(dropToLower k 2, (match v with | .fn i => i | _ => 0))] }
  else if k = "style" && v.isObjectType then
    match v with
    | .styleObj fields =>
      { n with style := (fields.foldl (fun st p =>
          if st.any (fun q => q.1 = p.1) then
            st.map (fun q => if q.1 = p.1 then (p.1, p.2) else q)
          else st ++ [p]) n.style) }
    | _ => n
  else if k = "className" then { n with className := some v }
  else
    { n with attrs :=
        if n.attrs.any (fun q => q.1 = k) then
          n.attrs.map (fun q => if q.1 = k then (k, v.toStr) else q)
        else n.attrs ++ [(k, v.toStr)] }

/-- `updateNativeProps(props)` — apply every prop in bag order
(src/client/dom.ts:61-76). -/
def updateNativeProps (n : NNode) (props : List (String × JSVal)) : NNode :=
  props.foldl (fun n p => applyProp n p.1 p.2) n

/-- A `DOMElement`: element identity, owned component (a `Child`, since
text elements own raw primitives), hook-slot array, optional native node,
the container it was mounted into, and its child elements. -/
inductive DElem where
  | mk (eid : Nat) (component : Child) (hooks : List HookSlot)
      (native : Option Nat) (container : Option CRef)
      (children : List DElem)

/-- Element identity. -/
def DElem.eid : DElem → Nat
  | .mk e _ _ _ _ _ => e

/-- The owned component. -/
def DElem.component : DElem → Child
  | .mk _ c _ _ _ _ => c

/-- The hook-slot array. -/
def DElem.hooks : DElem → List HookSlot
  | .mk _ _ h _ _ _ => h

/-- The native node handle. -/
def DElem.native : DElem → Option Nat
  | .mk _ _ _ n _ _ => n

/-- The mount container. -/
def DElem.container : DElem → Option CRef
  | .mk _ _ _ _ ct _ => ct

/-- The child elements. -/
def DElem.children : DElem → List DElem
  | .mk _ _ _ _ _ ch => ch

/-- Replace the owned component. -/
def DElem.setComponent : DElem → Child → DElem
  | .mk e _ h n ct ch, c => .mk e c h n ct ch

/-- Replace the hook-slot array. -/
def DElem.setHooks : DElem → List HookSlot → DElem
  | .mk e c _ n ct ch, h => .mk e c h n ct ch

/-- Replace the native handle. -/
def DElem.setNative : DElem → Option Nat → DElem
  | .mk e c h _ ct ch, n => .mk e c h n ct ch

/-- Replace the container. -/
def DElem.setContainer : DElem → Option CRef → DElem
  | .mk e c h n _ ch, ct => .mk e c h n ct ch

/-- Replace the child elements. -/
def DElem.setChildren : DElem → List DElem → DElem
  | .mk e c h n ct _, ch => .mk e c h n ct ch

/-- `createElement(component)` (src/client/dom.ts:233-244): wrap any
value in a fresh `DOMElement` with a fresh identity and empty hooks. -/
def createElementD (c : Child) (d : Dom) : DElem × Dom :=
  (.mk d.nextEid c [] none none [],
   { d with nextEid := d.nextEid + 1 })

/-- A hook slot on which reading the `pending` (or `cleanup`) property
does not throw: the source reads `hook.pending` on EVERY entry of the
hooks array, and a state slot holding `null` or `undefined` (stored by
`useState(null)` / `useState(undefined)`) makes that read throw a
`TypeError`; numbers, strings, functions and objects yield `undefined`
for the missing property and are skipped. -/
def effectSlotOk : HookSlot → Bool
  | .state .jsNull => false
  | .state .undef => false
  | _ => true

/-- `runEffects()` (src/client/dom.ts:191-200): for each hook slot,
read `hook.pending` — a `TypeError` when the slot is a state slot
holding `null`/`undefined`; when the flag is truthy (only watch slots
have one), invoke the prior cleanup if stored, invoke the effect body,
store the cleanup it returns, and clear `pending`.  State slots holding
other values read `pending` as `undefined` and are skipped. -/
def runEffectsSlots : List HookSlot → Dom → Except RErr (List HookSlot × Dom)
  | [], d => .ok ([], d)
  | .state v :: rest, d =>
    if v = .jsNull then
      .error (.typeError "Cannot read properties of null (reading pending)")
    else if v = .undef then
      .error (.typeError "Cannot read properties of undefined (reading pending)")
    else
      match runEffectsSlots rest d with
      | .error e => .error e
      | .ok (rest2, d2) => .ok (.state v :: rest2, d2)
  | .watch w :: rest, d =>
    if w.pending then
      let d1 := match w.cleanup with
        | some c => { d with cleanupLog := d.cleanupLog ++ [c] }
        | none => d
      let d1 := { d1 with effectLog := d1.effectLog ++ [w.effect] }
      let newCleanup := (d1.effectRet.find? (fun p => p.1 = w.effect)).map Prod.snd
      match runEffectsSlots rest d1 with
      | .error e => .error e
      | .ok (rest2, d2) =>
        .ok (.watch ⟨w.deps, w.effect, newCleanup, false⟩ :: rest2, d2)
    else
      match runEffectsSlots rest d with
      | .error e => .error e
      | .ok (rest2, d2) => .ok (.watch w :: rest2, d2)

/-- `this.hooks.forEach((h) => h.cleanup && h.cleanup())` — the unmount
path reads `h.cleanup` on every entry (a `TypeError` on a state slot
holding `null`/`undefined`) and runs every stored cleanup, pending or
not; other state slots read `cleanup` as `undefined` and are skipped. -/
def runCleanups : List HookSlot → Dom → Except RErr Dom
  | [], d => .ok d
  | .state v :: rest, d =>
    if v = .jsNull then
      .error (.typeError "Cannot read properties of null (reading cleanup)")
    else if v = .undef then
      .error (.typeError "Cannot read properties of undefined (reading cleanup)")
    else runCleanups rest d
  | .watch w :: rest, d =>
    let d := match w.cleanup with
      | some c => { d with cleanupLog := d.cleanupLog ++ [c] }
      | none => d
    runCleanups rest d

mutual
/-- `findFirstNode()` (src/client/dom.ts:181-189): this element's native
node, or the first native node found depth-first among its children. -/
def findFirstNode : DElem → Option Nat
  | .mk _ _ _ (some n) _ _ => some n
  | .mk _ _ _ none _ children => findFirstInList children

/-- First native node found across a list of elements. -/
def findFirstInList : List DElem → Option Nat
  | [] => none
  | c :: rest =>
    match findFirstNode c with
    | some n => some n
    | none => findFirstInList rest
end

/-- `findNextNode(children, startIndex)` (src/client/dom.ts:171-179):
the first native node of the remaining old children from `startIndex`
on. -/
def findNextNode (children : List DElem) (startIndex : Nat) : Option Nat :=
  findFirstInList (children.drop startIndex)

/-- JavaScript truthiness of a `Child` occurring in the reconcile loop's
`if (newComp …)` guards: `0`, the empty string, `null` and `undefined`
are falsy; components and arrays are objects, hence truthy. -/
def childTruthy : Child → Bool
  | .undef => false
  | .jsNull => false
  | .num n => n != 0
  | .str s => s != ""
  | .comp _ => true
  | .arr _ => true

/-- `typeof` of a `Child` value. -/
def typeofChild : Child → String
  | .comp _ => "object"
  | .arr _ => "object"
  | .jsNull => "object"
  | .str _ => "string"
  | .num _ => "number"
  | .undef => "undefined"

/-- JavaScript constructor identity for object-typed children:
`HTMLComponent`, `Array`, or the generic component's own class. -/
def jsCtorTag : Child → Nat
  | .comp (.html _ _ _ _) => 0
  | .arr _ => 1
  | .comp (.generic c _ _ _) => c + 2
  | _ => 0

/-- The `key` property of a child (`undefined` on primitives and
arrays). -/
def childKey : Child → JSVal
  | .comp (.html _ _ k _) => k
  | .comp (.generic _ k _ _) => k
  | _ => (.undef : JSVal)

/-- `canUpdate(oldEl, newComp)` (src/client/dom.ts:149-169): two
HTML-tag components are compatible iff same tag and same key; otherwise,
equal `typeof` is required, and object-typed non-null values must share
constructor and key; matching primitive types are always compatible. -/
def canUpdate (oldEl : DElem) (newComp : Child) : Bool :=
  match oldEl.component, newComp with
  | .comp (.html t1 _ k1 _), .comp (.html t2 _ k2 _) =>
    t1 = t2 && k1 = k2
  | oc, nc =>
    if typeofChild oc = typeofChild nc then
      if typeofChild nc = "object"
          && (match nc with | .jsNull => false | _ => true) then
        jsCtorTag oc = jsCtorTag nc && childKey oc = childKey nc
      else true
    else false

/-- `childContainer` (src/client/dom.ts:96-101): an HTML-tag element's
own native node, otherwise the container the element was mounted
into. -/
def childContainer (el : DElem) : Option CRef :=
  match el.component with
  | .comp (.html _ _ _ _) => el.native.map CRef.node
  | _ => el.container

mutual
/-- `unmount()` (src/client/dom.ts:223-230): `onDispose` (a no-op on
`Component` instances; primitives have no such method, so the call
throws), then run every stored hook cleanup, recursively unmount the
children, then remove the native node from its parent if attached. -/
def unmountElem : DElem → Dom → Except RErr Dom
  | .mk _ comp hooks native _ children, d =>
    match comp with
    | .comp _ =>
      match runCleanups hooks d with
      | .error e => .error e
      | .ok d =>
        match unmountList children d with
        | .error e => .error e
        | .ok d =>
          match native with
          | some nid => .ok (d.detach nid)
          | none => .ok d
    | _ => .error (.typeError "this.component.onDispose is not a function")

/-- `this.children.forEach((c) => c.unmount())`. -/
def unmountList : List DElem → Dom → Except RErr Dom
  | [], d => .ok d
  | c :: rest, d =>
    match unmountElem c d with
    | .error e => .error e
    | .ok d => unmountList rest d
end

mutual
/-- `mount(parentNativeNode, insertBeforeNode)`
(src/client/dom.ts:31-59): an HTML-tag component creates its native
node, applies all props, inserts it (before the reference node when
given, else appended), then `onInit` (no-op) and the first render pass;
a primitive creates and inserts a text node and returns at once; any
other value (array, `null`, `undefined`) has no `onInit`, so the call
throws. -/
def mountElem : Nat → DElem → CRef → Option Nat → Dom →
    Except RErr (DElem × Dom)
  | 0, _, _, _, _ => .error .fuelOut
  | fuel + 1, el, parentC, before, d =>
    let el := el.setContainer (some parentC)
    match el.component with
    | .comp (.html tag props _ _) =>
      let (nid, d) := d.addNode (updateNativeProps (freshElemNode tag) props)
      let ins : Except RErr Dom :=
        match before with
        | some ref => d.insertBeforeNode parentC nid ref
        | none => .ok (d.appendChild parentC nid)
      match ins with
      | .error e => .error e
      | .ok d => performRebuild fuel (el.setNative (some nid)) d
    | .comp (.generic _ _ _ _) =>
      performRebuild fuel el d
    | .str s =>
      let (nid, d) := d.addNode (freshTextNode s)
      let ins : Except RErr Dom :=
        match before with
        | some ref => d.insertBeforeNode parentC nid ref
        | none => .ok (d.appendChild parentC nid)
      match ins with
      | .error e => .error e
      | .ok d => .ok (el.setNative (some nid), d)
    | .num n =>
      let (nid, d) := d.addNode (freshTextNode (toString n))
      let ins : Except RErr Dom :=
        match before with
        | some ref => d.insertBeforeNode parentC nid ref
        | none => .ok (d.appendChild parentC nid)
      match ins with
      | .error e => .error e
      | .ok d => .ok (el.setNative (some nid), d)
    | .arr _ => .error (.typeError "this.component.onInit is not a function")
    | .jsNull => .error (.typeError "Cannot read properties of null")
    | .undef => .error (.typeError "Cannot read properties of undefined")

/-- `performRebuild()` (src/client/dom.ts:78-94): run the component's
render (hook processing included), run pending effects, normalize the
result (one-level flatten, drop null/undefined) and reconcile. -/
def performRebuild : Nat → DElem → Dom → Except RErr (DElem × Dom)
  | 0, _, _ => .error .fuelOut
  | fuel + 1, el, d =>
    match el.component with
    | .comp k =>
      let (result, hooks1) := renderBody k el.hooks
      match runEffectsSlots hooks1 d with
      | .error e => .error e
      | .ok (hooks2, d) =>
        reconcileChildren fuel (el.setHooks hooks2) (normalizeResult result) d
    | _ => .error (.typeError "this.component.render is not a function")

/-- `reconcileChildren(newComponents)` (src/client/dom.ts:103-147):
early return when there is no child container, otherwise run the
two-pointer walk and store the resulting list as the element's
children. -/
def reconcileChildren : Nat → DElem → List Child → Dom →
    Except RErr (DElem × Dom)
  | 0, _, _, _ => .error .fuelOut
  | fuel + 1, el, newComps, d =>
    match childContainer el with
    | none => .ok (el, d)
    | some cont =>
      match reconcileLoop fuel cont el.children newComps 0 0 [] d with
      | .error e => .error e
      | .ok (newChildren, d) => .ok (el.setChildren newChildren, d)

/-- The `while (newIndex < … || oldIndex < …)` body of
`reconcileChildren` (src/client/dom.ts:113-144), verbatim: the branch
guards test JavaScript TRUTHINESS of `newComp` (so the falsy leaves `0`
and `""` take no branch, and when additionally no old child remains, no
index advances — the loop spins).  Fuel models the iteration count. -/
def reconcileLoop : Nat → CRef → List DElem → List Child → Nat → Nat →
    List DElem → Dom → Except RErr (List DElem × Dom)
  | 0, _, _, _, _, _, _, _ => .error .fuelOut
  | fuel + 1, cont, oldChildren, newComps, oldIndex, newIndex, acc, d =>
    if newIndex < newComps.length ∨ oldIndex < oldChildren.length then
      match newComps.get? newIndex, oldChildren.get? oldIndex with
      | some nc, some oe =>
        if childTruthy nc then
          if canUpdate oe nc then
            match updateElem fuel oe nc d with
            | .error e => .error e
            | .ok (oe', d) =>
              reconcileLoop fuel cont oldChildren newComps
                (oldIndex + 1) (newIndex + 1) (acc ++ [oe']) d
          else
            match unmountElem oe d with
            | .error e => .error e
            | .ok d =>
              let (newEl, d) := createElementD nc d
              match mountElem fuel newEl cont
                  (findNextNode oldChildren (oldIndex + 1)) d with
              | .error e => .error e
              | .ok (newEl, d) =>
                reconcileLoop fuel cont oldChildren newComps
                  (oldIndex + 1) (newIndex + 1) (acc ++ [newEl]) d
        else
          match unmountElem oe d with
          | .error e => .error e
          | .ok d =>
            reconcileLoop fuel cont oldChildren newComps
              (oldIndex + 1) newIndex acc d
      | some nc, none =>
        if childTruthy nc then
          let (newEl, d) := createElementD nc d
          match mountElem fuel newEl cont none d with
          | .error e => .error e
          | .ok (newEl, d) =>
            reconcileLoop fuel cont oldChildren newComps
              oldIndex (newIndex + 1) (acc ++ [newEl]) d
        else
          reconcileLoop fuel cont oldChildren newComps oldIndex newIndex acc d
      | none, some oe =>
        match unmountElem oe d with
        | .error e => .error e
        | .ok d =>
          reconcileLoop fuel cont oldChildren newComps
            (oldIndex + 1) newIndex acc d
      | none, none =>
        reconcileLoop fuel cont oldChildren newComps oldIndex newIndex acc d
    else
      .ok (acc, d)

/-- `update(newComponent)` (src/client/dom.ts:215-221): replace the
owned component, invoke the update-notification lifecycle (a no-op on
`Component` instances; primitives have no such method, so the call
throws), then perform a render pass.  No prop application occurs. -/
def updateElem : Nat → DElem → Child → Dom → Except RErr (DElem × Dom)
  | 0, _, _, _ => .error .fuelOut
  | fuel + 1, el, newComp, d =>
    let el := el.setComponent newComp
    match newComp with
    | .comp _ => performRebuild fuel el d
    | _ => .error (.typeError "this.component.onComponentUpdate is not a function")
end

/-- `render(component, container)` (src/client/dom.ts:246-250): create a
fresh root element and mount it into the root container. -/
def renderD (fuel : Nat) (c : Child) (d : Dom) : Except RErr (DElem × Dom) :=
  let (el, d) := createElementD c d
  mountElem fuel el .root none d

/-! ## Auxiliary definitions used by the claim statements -/

/-- The candidate value a `useState` setter computes from its argument
and the currently stored value (`val instanceof Function ?
val(currentValue) : val`). -/
def setCandidate (arg : SetArg) (current : JSVal) : JSVal :=
  match arg with
  | .value v => v
  | .updater f => f current

/-- The effect ids of the pending watch slots of a hooks array, in slot
order — the effects one DOM render pass runs. -/
def pendingEffects : List HookSlot → List Nat
  | [] => []
  | .state _ :: rest => pendingEffects rest
  | .watch w :: rest =>
    if w.pending then w.effect :: pendingEffects rest else pendingEffects rest

/-- `true` when a child is not itself an array. -/
def noArr : Child → Bool
  | .arr _ => false
  | _ => true

/-- A render result whose arrays nest at most one level below the
top-level list: one application of `.flat()` leaves no array entry. -/
def resultDepth2 : Child → Bool
  | .arr xs => xs.all (fun c =>
      match c with
      | .arr ys => ys.all noArr
      | _ => true)
  | _ => true

/-- The observable part of a DOM mount outcome — everything but the
owned component description: element identity, hooks, native handle,
container, children and the entire DOM world. -/
def domObs (p : DElem × Dom) :
    Nat × List HookSlot × Option Nat × Option CRef × List DElem × Dom :=
  (p.1.eid, p.1.hooks, p.1.native, p.1.container, p.1.children, p.2)

/-- An HTML `div` component with the given `key` prop and no children
(the `div#k` of the reconciliation scenarios). -/
def divK (k : String) : Child :=
  .comp (HTMLComponent "div" [("key", .str k)] [])

/-- A mounted `div[key=k]` native node with the given children and
parent. -/
def divNode (k : String) (kids : List Nat) (par : NodeParent) : NNode :=
  ⟨some "div", "", [], [], none, [("key", k)], kids, par⟩

/-- Mounted child element `div#a` (element id 1, native node 10) with
live hook state: one state slot and one already-run watch slot holding a
cleanup. -/
def aEl : DElem :=
  .mk 1 (divK "a")
    [.state (.num 42), .watch ⟨some [.num 1], 7, some 70, false⟩]
    (some 10) (some (.node 0)) []

/-- Mounted child element `div#b` (element id 2, native node 11) with an
already-run watch slot holding cleanup 80. -/
def bEl : DElem :=
  .mk 2 (divK "b") [.watch ⟨some [.num 2], 8, some 80, false⟩]
    (some 11) (some (.node 0)) []

/-- Mounted child element `div#c` (element id 3, native node 12) with an
already-run watch slot holding cleanup 90. -/
def cEl : DElem :=
  .mk 3 (divK "c") [.watch ⟨some [.num 3], 9, some 90, false⟩]
    (some 12) (some (.node 0)) []

/-- DOM world for the growth scenario: parent node 0 contains child
nodes 10 and 11. -/
def dGrow : Dom :=
  ⟨[(0, divNode "p" [10, 11] .root), (10, divNode "a" [] (.pnode 0)),
    (11, divNode "b" [] (.pnode 0))], [0], 20, 4, [], [], []⟩

/-- Parent element (id 0, native node 0) owning mounted children `a` and
`b`. -/
def parentGrow : DElem :=
  .mk 0 (.comp (HTMLComponent "div" [] [])) [] (some 0) (some .root)
    [aEl, bEl]

/-- DOM world for the shrink scenario: parent node 0 contains child
nodes 10, 11 and 12. -/
def dShrink : Dom :=
  ⟨[(0, divNode "p" [10, 11, 12] .root), (10, divNode "a" [] (.pnode 0)),
    (11, divNode "b" [] (.pnode 0)), (12, divNode "c" [] (.pnode 0))],
   [0], 20, 4, [], [], []⟩

/-- Parent element (id 0, native node 0) owning mounted children `a`,
`b` and `c`. -/
def parentShrink : DElem :=
  .mk 0 (.comp (HTMLComponent "div" [] [])) [] (some 0) (some .root)
    [aEl, bEl, cEl]

/-- A parent element with an empty (freshly mounted) child list, used to
exercise the reconcile loop against falsy leaves. -/
def parentEmpty : DElem :=
  .mk 0 (.comp (HTMLComponent "div" [] [])) [] (some 0) (some .root) []

/-- The nested render result of the flattening counterexample:
`[["A", null], [["B"]]]` — an array entry survives one `.flat()`. -/
def deepResult : Child :=
  .arr [.arr [.str "A", .jsNull], .arr [.arr [.str "B"]]]

/-- A component whose render returns `deepResult`. -/
def deepComp : Component := .generic 0 .undef [] deepResult

/-- The same component with its render result fully flattened and
filtered, as the specification's normalization prescribes. -/
def deepCompFlat : Component :=
  .generic 0 .undef [] (.arr (flattenDeepChild deepResult))

/-- Mount of a `div` with prop `id="a"` into an empty root container
(the prop-application counterexample's starting state). -/
def c1Mounted : Except RErr (DElem × Dom) :=
  renderD 10 (.comp (HTMLComponent "div" [("id", .str "a")] [])) Dom.empty

/-- The state after updating that mounted element with a compatible
`div` whose props carry `id="b"`. -/
def c1Updated : Except RErr (DElem × Dom) :=
  match c1Mounted with
  | .ok (el, d) =>
    updateElem 10 el (.comp (HTMLComponent "div" [("id", .str "b")] [])) d
  | .error e => .error e

/-! # Theorems -/

/-- Reading a slot known to hold a state value. -/
theorem getD_of_get?_state {hooks : List HookSlot} {idx : Nat} {v : JSVal}
    (h : hooks.get? idx = some (.state v)) :
    hooks.getD idx (.state .undef) = .state v := by
  rw [List.getD]
  rw [h]
  rfl

/-- C4: for a `useState` slot, calling the setter with a value
strictly-equal to the stored one (directly or via an updater applied to
the stored value) leaves the slot array unchanged and performs zero
`markNeedsBuild` calls; a differing value is stored and `markNeedsBuild`
is called exactly once. -/
theorem useState_setter_value_identity
    (hooks : List HookSlot) (idx : Nat) (v : JSVal) (arg : SetArg)
    (h : hooks.get? idx = some (.state v)) :
    (setCandidate arg v = v → setState hooks idx arg = (hooks, 0)) ∧
    (setCandidate arg v ≠ v →
      setState hooks idx arg
        = (putSlot hooks idx (.state (setCandidate arg v)), 1)) := by
  have hv : (hooks.getD idx (.state .undef)).rawVal = v := by
    rw [getD_of_get?_state h]; rfl
  have key : setState hooks idx arg
      = if v ≠ setCandidate arg v
        then (putSlot hooks idx (.state (setCandidate arg v)), 1)
        else (hooks, 0) := by
    simp only [setState, hv]; rfl
  constructor
  · intro he
    rw [key, if_neg (by rw [he]; simp)]
  · intro hne
    rw [key, if_pos (fun hh => hne hh.symm)]

/-- C4 witness: at the slot `[state 5]`, setting the same value `5`
changes nothing, and setting `7` stores `7` with one `markNeedsBuild`. -/
theorem useState_setter_value_identity_witness :
    setState [.state (.num 5)] 0 (.value (.num 5)) = ([.state (.num 5)], 0) ∧
    setState [.state (.num 5)] 0 (.value (.num 7))
      = (putSlot [.state (.num 5)] 0 (.state (.num 7)), 1) :=
  ⟨(useState_setter_value_identity [.state (.num 5)] 0 (.num 5)
      (.value (.num 5)) rfl).1 rfl,
   (useState_setter_value_identity [.state (.num 5)] 0 (.num 5)
      (.value (.num 7)) rfl).2 (by decide)⟩

/-- The `deps.some((d, i) => d !== oldDeps[i])` test succeeds exactly
when some index of the new list differs from the old list there. -/
theorem depsDiffer_iff (deps ds : List JSVal) :
    depsDiffer deps ds = true
      ↔ ∃ i, i < deps.length ∧ deps.getD i .undef ≠ ds.getD i .undef := by
  simp [depsDiffer, List.any_eq_true, List.mem_range, bne_iff_ne]

/-- C8 counterexample: a watch slot storing deps `[1, 2]` with
`pending:false`, re-rendered with the shorter list `[1]` (a length
change the claim says must be detected), is left completely untouched —
`pending` stays `false` and the stored effect remains the old one —
instead of being replaced by a pending slot as the claim requires. -/
theorem useWatch_shrunken_deps_not_detected :
    useWatchStep [.watch ⟨some [.num 1, .num 2], 7, some 9, false⟩] 0 8 [.num 1]
      = [.watch ⟨some [.num 1, .num 2], 7, some 9, false⟩] ∧
    useWatchStep [.watch ⟨some [.num 1, .num 2], 7, some 9, false⟩] 0 8 [.num 1]
      ≠ [.watch ⟨some [.num 1], 8, some 9, true⟩] := by decide

/-- C8 (amended): a `useWatch` re-render replaces the slot (with
`pending:true`, carrying the stored cleanup forward) exactly when some
entry at an index of the NEW list differs by identity from the stored
entry there; when every index of the new list matches — including when
the new list is a strict prefix of the stored one, so the lengths
differ — the slot is left untouched, `pending` included. -/
theorem useWatch_dep_change_detection
    (hooks : List HookSlot) (idx : Nat) (w : WatchHook) (eff : Nat)
    (deps ds : List JSVal)
    (hslot : hooks.get? idx = some (.watch w)) (hd : w.deps = some ds) :
    ((∀ i, i < deps.length → deps.getD i .undef = ds.getD i .undef) →
       useWatchStep hooks idx eff deps = hooks) ∧
    ((∃ i, i < deps.length ∧ deps.getD i .undef ≠ ds.getD i .undef) →
       useWatchStep hooks idx eff deps
         = hooks.set idx (.watch ⟨some deps, eff, w.cleanup, true⟩)) := by
  have hlt : idx < hooks.length := (List.get?_eq_some.mp hslot).1
  constructor
  · intro hall
    have hdn : depsDiffer deps ds = false := by
      rw [← Bool.not_eq_true, depsDiffer_iff]
      push_neg
      exact hall
    simp only [useWatchStep, hslot, oldHookTruthy, oldHookDeps, hd,
      oldHookCleanup, hdn, Option.isNone_some, Option.getD_some,
      Bool.not_true, Bool.false_or]
    rfl
  · intro hex
    have hdy : depsDiffer deps ds = true := (depsDiffer_iff deps ds).mpr hex
    simp only [useWatchStep, hslot, oldHookTruthy, oldHookDeps, hd,
      oldHookCleanup, hdy, Option.isNone_some, Option.getD_some,
      Bool.not_true, Bool.false_or]
    rw [if_pos trivial, putSlot, if_pos hlt]

/-- C8 witness: the prefix-match branch applied at stored deps `[1]`
re-rendered with identical `[1]`. -/
theorem useWatch_dep_change_detection_witness :
    useWatchStep [.watch ⟨some [.num 1], 7, some 9, false⟩] 0 8 [.num 1]
      = [.watch ⟨some [.num 1], 7, some 9, false⟩] :=
  (useWatch_dep_change_detection [.watch ⟨some [.num 1], 7, some 9, false⟩]
    0 ⟨some [.num 1], 7, some 9, false⟩ 8 [.num 1] [.num 1] rfl rfl).1
    (by decide)

/-- C9: with no element registered as the active rendering target, each
of `useState`, `useWatch` and `useWatchEffect` throws the invalid-hook
error synchronously, before any slot is read or written — the engine
state, and with it every element's hook-slot array, is returned
unchanged. -/
theorem invalid_hook_call_throws (e : Engine) (h : e.active = none)
    (init : JSVal) (eff : Nat) (deps : List JSVal) :
    useStateCall e init = (.error invalidHookMsg, e) ∧
    useWatchCall e eff deps = (.error invalidHookMsg, e) ∧
    useWatchEffectCall e eff = (.error invalidHookMsg, e) ∧
    (useStateCall e init).2.hooksOf = e.hooksOf := by
  refine ⟨?_, ?_, ?_, ?_⟩ <;>
    simp [useStateCall, useWatchCall, useWatchEffectCall, h]

/-- C9 witness: a concrete engine with no active element and one stored
slot array rejects `useState` and keeps its state. -/
theorem invalid_hook_call_throws_witness :
    useStateCall ⟨none, 0, [(5, [.state (.num 1)])]⟩ (.num 0)
      = (.error invalidHookMsg, ⟨none, 0, [(5, [.state (.num 1)])]⟩) :=
  (invalid_hook_call_throws ⟨none, 0, [(5, [.state (.num 1)])]⟩ rfl
    (.num 0) 3 []).1

/-- Iterating `markNeedsBuild` at least once from a clean element yields
dirty state with exactly one queued microtask (all further calls are
no-ops). -/
theorem markNeedsBuild_iterate (r : Nat) :
    ∀ n, 1 ≤ n → markNeedsBuild^[n] ⟨false, 0, r⟩ = ⟨true, 1, r⟩ := by
  intro n hn
  cases n with
  | zero => omega
  | succ m =>
    rw [Function.iterate_succ_apply]
    have h1 : markNeedsBuild ⟨false, 0, r⟩ = ⟨true, 1, r⟩ := rfl
    rw [h1]
    exact Function.iterate_fixed rfl m

/-- C5: any positive number of `markNeedsBuild` calls within one
synchronous turn on a clean element leaves it dirty with exactly one
queued microtask and no rebuild yet (coalescing: the second and later
calls are no-ops); draining the microtask queue after the turn unwinds
then clears `dirty` and invokes `performRebuild` exactly once. -/
theorem markNeedsBuild_coalesces (s : SchedState) (n : Nat)
    (h1 : s.dirty = false) (h2 : s.pendingTasks = 0) (hn : 1 ≤ n) :
    (markNeedsBuild^[n] s).dirty = true ∧
    (markNeedsBuild^[n] s).pendingTasks = 1 ∧
    (markNeedsBuild^[n] s).rebuilds = s.rebuilds ∧
    markNeedsBuild (markNeedsBuild^[n] s) = markNeedsBuild^[n] s ∧
    drainMicrotasks (markNeedsBuild^[n] s) = ⟨false, 0, s.rebuilds + 1⟩ := by
  obtain ⟨sd, sp, sr⟩ := s
  simp only at h1 h2
  subst h1; subst h2
  rw [markNeedsBuild_iterate sr n hn]
  refine ⟨rfl, rfl, rfl, rfl, ?_⟩
  rfl

/-- C5 witness: three synchronous `markNeedsBuild` calls on a clean
element coalesce into a single deferred rebuild. -/
theorem markNeedsBuild_coalesces_witness :
    drainMicrotasks (markNeedsBuild^[3] ⟨false, 0, 5⟩)
      = (⟨false, 0, 6⟩ : SchedState) :=
  (markNeedsBuild_coalesces ⟨false, 0, 5⟩ 3 rfl rfl (by decide)).2.2.2.2

/-- One spin of the reconcile loop on a falsy leaf with the old list
exhausted takes no branch and advances no index: the loop never
terminates, whatever the iteration budget. -/
theorem reconcileLoop_stuck (cont : CRef) (nc : Child)
    (h : childTruthy nc = false) (d : Dom) :
    ∀ fuel, reconcileLoop fuel cont [] [nc] 0 0 [] d = .error .fuelOut := by
  intro fuel
  induction fuel with
  | zero => rfl
  | succ m ih =>
    rw [reconcileLoop]
    rw [if_pos (by simp)]
    simp only [List.get?]
    rw [h]
    simp only [Bool.false_eq_true, if_false]
    exact ih

/-- C10 (code bug): `reconcileChildren` does NOT terminate when the new
leaves contain the falsy primitives `0` or `""` — both survive the
null/undefined filter, but the loop guards test truthiness, so no branch
fires and no index advances once the old children are exhausted; the
loop spins forever (here: exhausts every fuel).  The claim's expected
behaviour — termination with one text element per remaining leaf — never
occurs, and a whole `render` of a component returning `0` diverges. -/
theorem reconcile_falsy_leaf_diverges :
    (∀ fuel, reconcileChildren fuel parentEmpty [.num 0] Dom.empty
       = .error .fuelOut) ∧
    (∀ fuel, reconcileChildren fuel parentEmpty [.str ""] Dom.empty
       = .error .fuelOut) ∧
    renderD 50 (.comp (.generic 0 .undef [] (.num 0))) Dom.empty
      = .error .fuelOut := by
  refine ⟨?_, ?_, ?_⟩
  · intro fuel
    cases fuel with
    | zero => rfl
    | succ m =>
      have hc : childContainer parentEmpty = some (.node 0) := rfl
      have hch : parentEmpty.children = [] := rfl
      simp only [reconcileChildren, hc, hch,
        reconcileLoop_stuck (.node 0) (.num 0) rfl Dom.empty m]
  · intro fuel
    cases fuel with
    | zero => rfl
    | succ m =>
      have hc : childContainer parentEmpty = some (.node 0) := rfl
      have hch : parentEmpty.children = [] := rfl
      simp only [reconcileChildren, hc, hch,
        reconcileLoop_stuck (.node 0) (.str "") rfl Dom.empty m]
  · rfl

/-- C1 counterexample: mount a `div` with `id="a"`, then `update` it
with a compatible `div` (same tag, no key) whose props set `id="b"`.
The native node's attributes still read `id="a"`: `update` performs no
prop application, whereas mount-style application of the new props would
yield `id="b"`. -/
theorem update_skips_prop_application :
    (c1Updated.map (fun q => (q.2.getNode 0).map NNode.attrs))
      = .ok (some [("id", "a")]) ∧
    (updateNativeProps (freshElemNode "div") [("id", .str "b")]).attrs
      = [("id", "b")] ∧
    (some [("id", "a")] : Option (List (String × String)))
      ≠ some [("id", "b")] :=
  ⟨rfl, by decide, by decide⟩

/-- `runEffects` never touches the native node store when it
succeeds. -/
theorem runEffectsSlots_nodes :
    ∀ (hooks : List HookSlot) (d : Dom) (h2 : List HookSlot) (d2 : Dom),
      runEffectsSlots hooks d = .ok (h2, d2) → d2.nodes = d.nodes := by
  intro hooks
  induction hooks with
  | nil =>
    intro d h2 d2 h
    rw [runEffectsSlots] at h
    have := Except.ok.inj h
    rw [Prod.mk.injEq] at this
    rw [← this.2]
  | cons hd rest ih =>
    intro d h2 d2 h
    cases hd with
    | state v =>
      rw [runEffectsSlots] at h
      by_cases h0 : v = .jsNull
      · rw [if_pos h0] at h
        simp at h
      · rw [if_neg h0] at h
        by_cases h1 : v = .undef
        · rw [if_pos h1] at h
          simp at h
        · rw [if_neg h1] at h
          rcases hre : runEffectsSlots rest d with e | q
          · simp only [hre] at h
            simp at h
          · rcases q with ⟨r2, dd⟩
            simp only [hre] at h
            have h3 := Except.ok.inj h
            rw [Prod.mk.injEq] at h3
            rw [← h3.2]
            exact ih d r2 dd hre
    | watch w =>
      by_cases hp : w.pending
      · rw [runEffectsSlots] at h
        simp only [hp, if_true] at h
        cases hcl : w.cleanup with
        | none =>
          rw [hcl] at h
          simp only at h
          rcases hre : runEffectsSlots rest
              { d with effectLog := d.effectLog ++ [w.effect] } with e | q
          · simp only [hre] at h
            simp at h
          · rcases q with ⟨r2, dd⟩
            simp only [hre] at h
            have h3 := Except.ok.inj h
            rw [Prod.mk.injEq] at h3
            rw [← h3.2]
            exact ih { d with effectLog := d.effectLog ++ [w.effect] } r2 dd hre
        | some c =>
          rw [hcl] at h
          simp only at h
          rcases hre : runEffectsSlots rest
              { d with cleanupLog := d.cleanupLog ++ [c],
                       effectLog := d.effectLog ++ [w.effect] } with e | q
          · simp only [hre] at h
            simp at h
          · rcases q with ⟨r2, dd⟩
            simp only [hre] at h
            have h3 := Except.ok.inj h
            rw [Prod.mk.injEq] at h3
            rw [← h3.2]
            exact ih { d with cleanupLog := d.cleanupLog ++ [c],
                              effectLog := d.effectLog ++ [w.effect] } r2 dd hre
      · rw [runEffectsSlots] at h
        simp only [hp, if_false] at h
        rcases hre : runEffectsSlots rest d with e | q
        · simp only [hre] at h
          simp at h
        · rcases q with ⟨r2, dd⟩
          simp only [hre] at h
          have h3 := Except.ok.inj h
          rw [Prod.mk.injEq] at h3
          rw [← h3.2]
          exact ih d r2 dd hre

/-- C1 (amended): `update(newComponent)` on a mounted HTML-tag element
replaces the owned component and performs a render pass whose effect
phase is exactly `runEffects` on the element's hooks — including its
fault when a state slot holds `null`/`undefined` — and applies none of
`newComponent`'s props: whenever the effect phase succeeds, the whole
native node store — listeners, style, class and attributes of the
existing node included — is exactly what mount left it. -/
theorem update_replaces_component_keeps_props
    (n eid nid : Nat) (t t2 : String) (p p2 : List (String × JSVal))
    (k k2 : JSVal) (cs : List Child) (hooks : List HookSlot)
    (ct : Option CRef) (d : Dom) :
    updateElem (n + 4)
        (DElem.mk eid (.comp (.html t p k cs)) hooks (some nid) ct [])
        (.comp (.html t2 p2 k2 [])) d
      = (runEffectsSlots hooks d).map
          (fun q => (DElem.mk eid (.comp (.html t2 p2 k2 [])) q.1
                       (some nid) ct [], q.2)) ∧
    (∀ h2 d2, runEffectsSlots hooks d = .ok (h2, d2) →
       d2.nodes = d.nodes) := by
  constructor
  · rw [show n + 4 = (((n + 1) + 1) + 1) + 1 by omega]
    rw [updateElem]
    simp only [DElem.setComponent]
    rw [performRebuild]
    simp only [DElem.component, DElem.hooks, renderBody]
    rcases hre : runEffectsSlots hooks d with e | q
    · simp only [hre, Except.map]
    · rcases q with ⟨h2, d2⟩
      simp only [hre, DElem.setHooks, Except.map]
      rw [reconcileChildren]
      simp only [childContainer, DElem.component, DElem.native,
        Option.map_some]
      have hnorm : normalizeResult (.arr []) = [] := rfl
      rw [hnorm]
      have hloop : reconcileLoop (n + 1) (.node nid) [] [] 0 0 [] d2
          = .ok ([], d2) := by
        rw [reconcileLoop]
        rw [if_neg (by simp)]
      simp only [Option.map_some', DElem.children, hloop, DElem.setChildren]
  · intro h2 d2 hre
    exact runEffectsSlots_nodes hooks d h2 d2 hre

/-- C1 amended-theorem witness: the update equation and the
node-preservation implication discharged at a concrete mounted element
with an empty hooks array. -/
theorem update_replaces_component_keeps_props_witness :
    updateElem 4
        (DElem.mk 7 (.comp (.html "div" [] .undef [])) [] (some 3) none [])
        (.comp (.html "div" [] .undef [])) Dom.empty
      = (runEffectsSlots [] Dom.empty).map
          (fun q => (DElem.mk 7 (.comp (.html "div" [] .undef [])) q.1
                       (some 3) none [], q.2)) ∧
    Dom.empty.nodes = Dom.empty.nodes :=
  ⟨(update_replaces_component_keeps_props 0 7 3 "div" "div" [] []
      .undef .undef [] [] none Dom.empty).1,
   (update_replaces_component_keeps_props 0 7 3 "div" "div" [] []
      .undef .undef [] [] none Dom.empty).2 [] Dom.empty rfl⟩

/-- C3: reconciling mounted `[div#a, div#b]` (elements 1 and 2, native
nodes 10 and 11, live hook slots) against `[div#a, div#b, div#c]`
updates `a` and `b` in place — the result's first two children are the
very same elements, hook-slot arrays and native nodes included — and
mounts exactly one fresh element for `c` (fresh id 4, fresh node 20)
appended at the container's end; symmetrically, reconciling
`[div#a, div#b, div#c]` against `[div#a]` keeps `a` untouched and
unmounts `b` and `c`, detaching their nodes and running their stored
effect cleanups (80 then 90) in order. -/
theorem reconcile_index_aligned_scenarios :
    reconcileChildren 20 parentGrow [divK "a", divK "b", divK "c"] dGrow
      = .ok (DElem.mk 0 (.comp (HTMLComponent "div" [] [])) [] (some 0)
               (some .root)
               [aEl, bEl, DElem.mk 4 (divK "c") [] (some 20)
                  (some (.node 0)) []],
             ⟨[(0, divNode "p" [10, 11, 20] .root),
               (10, divNode "a" [] (.pnode 0)),
               (11, divNode "b" [] (.pnode 0)),
               (20, divNode "c" [] (.pnode 0))],
              [0], 21, 5, [], [], []⟩) ∧
    reconcileChildren 20 parentShrink [divK "a"] dShrink
      = .ok (DElem.mk 0 (.comp (HTMLComponent "div" [] [])) [] (some 0)
               (some .root) [aEl],
             ⟨[(0, divNode "p" [10] .root),
               (10, divNode "a" [] (.pnode 0)),
               (11, divNode "b" [] .detached),
               (12, divNode "c" [] .detached)],
              [0], 20, 4, [], [80, 90], []⟩) :=
  ⟨rfl, rfl⟩

/-- C7 counterexample: an `HTMLComponent` constructed with a `key` prop
serializes WITH a `key="…"` attribute — the SSR attribute loop skips
`className`/`on*`/`children`/`style` but has no case for `key`, and the
constructor leaves `key` inside the prop bag. -/
theorem key_prop_serialized :
    renderToString 10 (HTMLComponent "div" [("key", .str "k")] []) ⟨[], []⟩
      = .ok ("<div key=\"k\"></div>", ⟨[], []⟩) ∧
    renderToString 10 (HTMLComponent "div" [("key", .str "k")] []) ⟨[], []⟩
      ≠ .ok ("<div></div>", ⟨[], []⟩) := by
  constructor
  · rfl
  · intro h
    have h1 : renderToString 10 (HTMLComponent "div" [("key", .str "k")] []) ⟨[], []⟩
        = .ok ("<div key=\"k\"></div>", ⟨[], []⟩) := rfl
    rw [h1] at h
    have h2 := congrArg Prod.fst (Except.ok.inj h)
    exact absurd h2 (by decide)

/-- A prop whose name begins with `on` contributes no attribute chunk. -/
theorem ssrAttr_on_empty (k : String) (v : JSVal)
    (h : jsStartsWith k "on" = true) : ssrAttr k v = "" := by
  have hk : k ≠ "className" := by
    intro he
    subst he
    exact absurd h (by decide)
  unfold ssrAttr
  rw [if_neg hk, if_pos h]

/-- The `children` prop contributes no attribute chunk. -/
theorem ssrAttr_children_empty (v : JSVal) : ssrAttr "children" v = "" := rfl

/-- Dropping the `on*`-named and `children` props from the bag leaves
the serialized attribute string unchanged: their chunks are empty and
are filtered out before joining. -/
theorem ssrAttrs_filter_events_children (props : List (String × JSVal)) :
    ssrAttrs props
      = ssrAttrs (props.filter
          (fun p => !(jsStartsWith p.1 "on" || p.1 == "children"))) := by
  unfold ssrAttrs
  congr 1
  induction props with
  | nil => rfl
  | cons hd tl ih =>
    rcases hd with ⟨hk, hv⟩
    by_cases h1 : jsStartsWith hk "on"
    · simp only [List.filter_cons, List.map_cons, h1, Bool.true_or,
        Bool.not_true, Bool.false_eq_true, if_false,
        ssrAttr_on_empty hk hv h1]
      simpa using ih
    · by_cases h2 : hk = "children"
      · subst h2
        simp only [List.filter_cons, List.map_cons, ssrAttr_children_empty]
        simp only [show (("children" : String) == "children") = true from rfl,
          Bool.or_true, Bool.not_true, h1]
        simp only [Bool.false_eq_true, if_false]
        simpa using ih
      · have hbeq : (hk == "children") = false := by
          rw [beq_eq_false_iff_ne]
          exact h2
        simp only [List.filter_cons, List.map_cons, h1, hbeq, Bool.or_false,
          Bool.not_false, if_true]
        rw [ih]

/-- C7 (amended): serialization omits the `on*`-prefixed and `children`
props — removing them from the bag yields the very same output — but the
`key` prop is NOT omitted: it serializes as an ordinary stringified
attribute. -/
theorem ssr_omits_event_and_children_props
    (fuel : Nat) (tag : String) (props : List (String × JSVal)) (k : JSVal)
    (children : List Child) (s : SSRState) :
    ssrToString (fuel + 1) (.comp (.html tag props k children)) s
      = ssrToString (fuel + 1) (.comp (.html tag
          (props.filter
            (fun p => !(jsStartsWith p.1 "on" || p.1 == "children")))
          k children)) s ∧
    ∀ v, ssrAttr "key" v = "key=\"" ++ v.toStr ++ "\"" := by
  constructor
  · simp only [ssrToString, renderBody]
    simp only [← ssrAttrs_filter_events_children]
  · intro v
    rfl

/-- C2 counterexample: for the render result `[["A", null], [["B"]]]` —
whose full flattening is `["A", "B"]` — the single `.flat()` leaves the
inner array `["B"]` as a leaf; both `renderToString` and DOM mounting
then treat that array as a component and throw a `TypeError`, while the
fully-flattened result serializes to `"AB"` and mounts two text nodes.
The outputs differ, refuting arbitrary-depth flattening. -/
theorem deep_nesting_differs :
    renderToString 10 deepComp ⟨[], []⟩
      = .error (.typeError "this.component.render is not a function") ∧
    renderToString 10 deepCompFlat ⟨[], []⟩ = .ok ("AB", ⟨[], []⟩) ∧
    renderToString 10 deepComp ⟨[], []⟩
      ≠ renderToString 10 deepCompFlat ⟨[], []⟩ ∧
    renderD 20 (.comp deepComp) Dom.empty
      = .error (.typeError "this.component.onInit is not a function") ∧
    (renderD 20 (.comp deepCompFlat) Dom.empty).map
        (fun p => (p.2.rootChildren, p.2.nodes.map (fun q => q.2.text)))
      = .ok ([0, 1], ["A", "B"]) := by
  refine ⟨rfl, rfl, ?_, rfl, rfl⟩
  intro h
  have h1 : renderToString 10 deepComp ⟨[], []⟩
      = .error (.typeError "this.component.render is not a function") := rfl
  have h2 : renderToString 10 deepCompFlat ⟨[], []⟩
      = .ok ("AB", ⟨[], []⟩) := rfl
  rw [h1, h2] at h
  exact absurd h (by simp)

/-- One-level flatten distributes over append. -/
theorem flattenOne_append (xs ys : List Child) :
    flattenOne (xs ++ ys) = flattenOne xs ++ flattenOne ys := by
  induction xs with
  | nil => rfl
  | cons c rest ih =>
    cases c <;> simp [flattenOne, ih]

mutual
/-- A fully-flattened list contains no arrays, so a further one-level
flatten is the identity on it. -/
theorem flattenDeep_flat : (L : List Child) →
    flattenOne (flattenDeep L) = flattenDeep L
  | [] => rfl
  | c :: rest => by
    rw [flattenDeep, flattenOne_append, flattenDeepChild_flat c,
      flattenDeep_flat rest]

/-- One-level flatten is the identity on a fully-flattened child. -/
theorem flattenDeepChild_flat : (c : Child) →
    flattenOne (flattenDeepChild c) = flattenDeepChild c
  | .arr xs => by rw [flattenDeepChild]; exact flattenDeep_flat xs
  | .comp _ => rfl
  | .str _ => rfl
  | .num _ => rfl
  | .jsNull => rfl
  | .undef => rfl
end

mutual
/-- A fully-flattened list contains no null/undefined entries. -/
theorem flattenDeep_kept : (L : List Child) →
    (flattenDeep L).filter childKeep = flattenDeep L
  | [] => rfl
  | c :: rest => by
    rw [flattenDeep, List.filter_append, flattenDeepChild_kept c,
      flattenDeep_kept rest]

/-- The null/undefined filter is the identity on a fully-flattened
child. -/
theorem flattenDeepChild_kept : (c : Child) →
    (flattenDeepChild c).filter childKeep = flattenDeepChild c
  | .arr xs => by rw [flattenDeepChild]; exact flattenDeep_kept xs
  | .comp _ => rfl
  | .str _ => rfl
  | .num _ => rfl
  | .jsNull => rfl
  | .undef => rfl
end

/-- On an array-free list, the null/undefined filter computes the full
flattening. -/
theorem noArr_filter_eq_flattenDeep (ys : List Child) (h : ys.all noArr = true) :
    ys.filter childKeep = flattenDeep ys := by
  induction ys with
  | nil => rfl
  | cons c rest ih =>
    rw [List.all_cons, Bool.and_eq_true] at h
    have hrest := ih h.2
    cases c with
    | arr xs =>
      rw [show noArr (Child.arr xs) = false from rfl] at h
      exact absurd h.1 (by simp)
    | comp k => simp [List.filter_cons, childKeep, flattenDeep, flattenDeepChild, hrest]
    | str t => simp [List.filter_cons, childKeep, flattenDeep, flattenDeepChild, hrest]
    | num n => simp [List.filter_cons, childKeep, flattenDeep, flattenDeepChild, hrest]
    | jsNull => simp [List.filter_cons, childKeep, flattenDeep, flattenDeepChild, hrest]
    | undef => simp [List.filter_cons, childKeep, flattenDeep, flattenDeepChild, hrest]

/-- When arrays nest at most one level inside the list, the code's
normalization (one flatten, then filter) agrees with the spec's full
flattening. -/
theorem depth2_flattenOne_filter (xs : List Child)
    (h : (xs.all (fun c => match c with
          | .arr ys => ys.all noArr
          | _ => true)) = true) :
    (flattenOne xs).filter childKeep = flattenDeep xs := by
  induction xs with
  | nil => rfl
  | cons c rest ih =>
    rw [List.all_cons, Bool.and_eq_true] at h
    have hrest := ih h.2
    cases c with
    | arr ys =>
      rw [flattenOne, List.filter_append, noArr_filter_eq_flattenDeep ys h.1,
        hrest, flattenDeep, flattenDeepChild]
    | comp k =>
      simp [flattenOne, List.filter_cons, childKeep, flattenDeep,
        flattenDeepChild, hrest]
    | str t =>
      simp [flattenOne, List.filter_cons, childKeep, flattenDeep,
        flattenDeepChild, hrest]
    | num n =>
      simp [flattenOne, List.filter_cons, childKeep, flattenDeep,
        flattenDeepChild, hrest]
    | jsNull =>
      simp [flattenOne, List.filter_cons, childKeep, flattenDeep,
        flattenDeepChild, hrest]
    | undef =>
      simp [flattenOne, List.filter_cons, childKeep, flattenDeep,
        flattenDeepChild, hrest]

/-- At nesting depth at most two, the backends' `normalizeResult` equals
the specification's deep flattening. -/
theorem normalize_eq_deep (r : Child) (h : resultDepth2 r = true) :
    normalizeResult r = flattenDeepChild r := by
  cases r with
  | arr xs =>
    rw [normalizeResult]
    rw [flattenDeepChild]
    exact depth2_flattenOne_filter xs h
  | comp k => rfl
  | str t => rfl
  | num n => rfl
  | jsNull => rfl
  | undef => rfl

/-- Normalizing an already fully-flattened result changes nothing. -/
theorem normalize_deep_flat (r : Child) :
    normalizeResult (.arr (flattenDeepChild r)) = flattenDeepChild r := by
  rw [normalizeResult, flattenDeepChild_flat r, flattenDeepChild_kept r]

/-- C2 (amended): flattening is one level deep, not arbitrary.  For a
component whose render result nests arrays at most one level inside the
top-level list, `renderToString` and DOM mounting produce exactly the
same outcome as rendering the fully flattened, null/undefined-filtered
list (for every fuel, hook state, DOM world and effect state); deeper
nesting is NOT flattened and faults (see the counterexample). -/
theorem one_level_flatten_matches_spec_at_depth_two
    (r : Child) (ctor : Nat) (key : JSVal) (calls : List HookCall)
    (fuel eid : Nat) (hl : List HookSlot) (d : Dom) (s : SSRState)
    (h : resultDepth2 r = true) :
    ssrToString fuel (.comp (.generic ctor key calls r)) s
      = ssrToString fuel (.comp (.generic ctor key calls
          (.arr (flattenDeepChild r)))) s ∧
    (mountElem fuel (DElem.mk eid (.comp (.generic ctor key calls r)) hl
        none none []) .root none d).map domObs
      = (mountElem fuel (DElem.mk eid (.comp (.generic ctor key calls
          (.arr (flattenDeepChild r)))) hl none none []) .root none d).map
          domObs := by
  constructor
  · cases fuel with
    | zero => rfl
    | succ m =>
      simp only [ssrToString, renderBody]
      rw [normalize_eq_deep r h, normalize_deep_flat r]
  · cases fuel with
    | zero => rfl
    | succ m =>
      rw [mountElem, mountElem]
      simp only [DElem.setContainer, DElem.component]
      cases m with
      | zero => rfl
      | succ j =>
        rw [performRebuild, performRebuild]
        simp only [DElem.component, DElem.hooks, renderBody]
        rcases hre : runEffectsSlots (processHooks calls hl 0) d with e | q
        · simp only [hre, Except.map]
        · rcases q with ⟨h2, d2⟩
          simp only [hre, DElem.setHooks]
          rw [normalize_eq_deep r h, normalize_deep_flat r]
          cases j with
          | zero => rfl
          | succ i =>
            rw [reconcileChildren, reconcileChildren]
            simp only [childContainer, DElem.component, DElem.container,
              DElem.children]
            rcases hrl : reconcileLoop i .root [] (flattenDeepChild r)
                0 0 [] d2 with e2 | p
            · simp only [hrl, Except.map]
            · rcases p with ⟨cs, d3⟩
              simp only [hrl, DElem.setChildren, Except.map, domObs,
                DElem.eid, DElem.hooks, DElem.native, DElem.container,
                DElem.children]

/-- C2 witness: the depth-two equivalence applied to the concrete result
`[["A", null], "C"]`. -/
theorem one_level_flatten_matches_spec_at_depth_two_witness :
    ssrToString 10 (.comp (.generic 0 .undef []
        (.arr [.arr [.str "A", .jsNull], .str "C"]))) ⟨[], []⟩
      = ssrToString 10 (.comp (.generic 0 .undef []
          (.arr (flattenDeepChild (.arr [.arr [.str "A", .jsNull], .str "C"])))))
          ⟨[], []⟩ :=
  (one_level_flatten_matches_spec_at_depth_two
    (.arr [.arr [.str "A", .jsNull], .str "C"]) 0 .undef [] 10 0 []
    Dom.empty ⟨[], []⟩ rfl).1

/-- Serializing a child list preserves the effect-observation state
whenever serializing each child does. -/
theorem joinRender_state
    (f : Child → SSRState → Except RErr (String × SSRState))
    (hf : ∀ c s out s2, f c s = .ok (out, s2) → s2 = s) :
    ∀ L s out s2, joinRender f L s = .ok (out, s2) → s2 = s := by
  intro L
  induction L with
  | nil =>
    intro s out s2 hj
    rw [joinRender] at hj
    exact (congrArg Prod.snd (Except.ok.inj hj)).symm
  | cons c rest ih =>
    intro s out s2 hj
    rw [joinRender] at hj
    rcases hc : f c s with e | p
    · simp only [hc] at hj
      simp at hj
    · rcases p with ⟨o1, s1⟩
      simp only [hc] at hj
      rcases hr : joinRender f rest s1 with e | q
      · simp only [hr] at hj
        simp at hj
      · rcases q with ⟨o2, s3⟩
        simp only [hr] at hj
        have h3 : s3 = s2 := congrArg Prod.snd (Except.ok.inj hj)
        have h1 : s1 = s := hf c s o1 s1 hc
        have h2 : s3 = s1 := ih s1 o2 s3 hr
        rw [← h3, h2, h1]

/-- A successful `SSRElement.toString` returns the effect-observation
state it was given: no effect body or cleanup is ever invoked during
serialization. -/
theorem ssrToString_state :
    ∀ fuel c s out s2, ssrToString fuel c s = .ok (out, s2) → s2 = s := by
  intro fuel
  induction fuel with
  | zero =>
    intro c s out s2 hh
    exact absurd hh (by simp [ssrToString])
  | succ m ih =>
    intro c s out s2 hh
    cases c with
    | str t =>
      rw [ssrToString] at hh
      exact (congrArg Prod.snd (Except.ok.inj hh)).symm
    | num n =>
      rw [ssrToString] at hh
      exact (congrArg Prod.snd (Except.ok.inj hh)).symm
    | arr xs => exact absurd hh (by rw [ssrToString] at hh ⊢; simp at hh)
    | jsNull => exact absurd hh (by rw [ssrToString] at hh ⊢; simp at hh)
    | undef => exact absurd hh (by rw [ssrToString] at hh ⊢; simp at hh)
    | comp k =>
      rw [ssrToString] at hh
      rcases hj : joinRender (ssrToString m)
          (normalizeResult (renderBody k []).1) s with e | p
      · simp only [hj] at hh
        cases k with
        | html tag props key cs => simp at hh
        | generic ctor key calls res => simp at hh
      · rcases p with ⟨o1, s1⟩
        simp only [hj] at hh
        have h1 : s1 = s := joinRender_state (ssrToString m) (ih)
          (normalizeResult (renderBody k []).1) s o1 s1 hj
        cases k with
        | html tag props key cs =>
          have h2 := Except.ok.inj hh
          rw [Prod.mk.injEq] at h2
          rw [← h2.2, h1]
        | generic ctor key calls res =>
          have h2 := Except.ok.inj hh
          rw [Prod.mk.injEq] at h2
          rw [← h2.2, h1]

/-- Members of a slot array after a write are old members, the written
slot, or an `undefined` hole. -/
theorem mem_putSlot (hooks : List HookSlot) (idx : Nat) (ns x : HookSlot)
    (h : x ∈ putSlot hooks idx ns) :
    x ∈ hooks ∨ x = ns ∨ x = .state .undef := by
  rw [putSlot] at h
  by_cases hlt : idx < hooks.length
  · rw [if_pos hlt] at h
    rcases List.mem_or_eq_of_mem_set h with h1 | h2
    · exact Or.inl h1
    · exact Or.inr (Or.inl h2)
  · rw [if_neg hlt] at h
    rcases List.mem_append.mp h with h1 | h2
    · rcases List.mem_append.mp h1 with h3 | h4
      · exact Or.inl h3
      · exact Or.inr (Or.inr (List.eq_of_mem_replicate h4))
    · rcases List.mem_singleton.mp h2 with rfl
      exact Or.inr (Or.inl rfl)

/-- `useState` initialisation introduces no watch slots. -/
theorem watch_mem_useStateStep (hooks : List HookSlot) (idx : Nat)
    (init : JSVal) (w : WatchHook)
    (h : HookSlot.watch w ∈ useStateStep hooks idx init) :
    HookSlot.watch w ∈ hooks := by
  rw [useStateStep] at h
  by_cases hle : hooks.length ≤ idx
  · rw [if_pos hle] at h
    rcases mem_putSlot _ _ _ _ h with h1 | h2 | h3
    · exact h1
    · exact absurd h2 (by simp)
    · exact absurd h3 (by simp)
  · rw [if_neg hle] at h
    exact h

/-- A watch slot present after a `useWatch` call was already present or
is pending. -/
theorem watch_mem_useWatchStep (hooks : List HookSlot) (idx eff : Nat)
    (deps : List JSVal) (w : WatchHook)
    (h : HookSlot.watch w ∈ useWatchStep hooks idx eff deps) :
    HookSlot.watch w ∈ hooks ∨ w.pending = true := by
  rw [useWatchStep] at h
  by_cases hch : (!oldHookTruthy (hooks.get? idx)
      || (oldHookDeps (hooks.get? idx)).isNone
      || depsDiffer deps ((oldHookDeps (hooks.get? idx)).getD [])) = true
  · rw [if_pos hch] at h
    rcases mem_putSlot _ _ _ _ h with h1 | h2 | h3
    · exact Or.inl h1
    · refine Or.inr ?_
      have := congrArg (fun s => match s with
        | HookSlot.watch w => w.pending
        | HookSlot.state _ => false) h2
      simpa using this
    · exact absurd h3 (by simp)
  · rw [if_neg hch] at h
    exact Or.inl h

/-- A watch slot present after a `useWatchEffect` call was already
present or is pending. -/
theorem watch_mem_useWatchEffectStep (hooks : List HookSlot) (idx eff : Nat)
    (w : WatchHook)
    (h : HookSlot.watch w ∈ useWatchEffectStep hooks idx eff) :
    HookSlot.watch w ∈ hooks ∨ w.pending = true := by
  rw [useWatchEffectStep] at h
  rcases mem_putSlot _ _ _ _ h with h1 | h2 | h3
  · exact Or.inl h1
  · refine Or.inr ?_
    have := congrArg (fun s => match s with
      | HookSlot.watch w => w.pending
      | HookSlot.state _ => false) h2
    simpa using this
  · exact absurd h3 (by simp)

/-- Every watch slot recorded during a render pass that started from
slots that were all pending is itself pending: in particular, a fresh
(SSR) element's recorded effect slots are all left pending. -/
theorem processHooks_pending_invariant :
    ∀ (calls : List HookCall) (hooks : List HookSlot) (idx : Nat),
      (∀ w, HookSlot.watch w ∈ hooks → w.pending = true) →
      ∀ w, HookSlot.watch w ∈ processHooks calls hooks idx →
        w.pending = true := by
  intro calls
  induction calls with
  | nil =>
    intro hooks idx hinv w hw
    exact hinv w hw
  | cons c rest ih =>
    intro hooks idx hinv w hw
    cases c with
    | hState init =>
      rw [show processHooks (HookCall.hState init :: rest) hooks idx
          = processHooks rest (useStateStep hooks idx init) (idx + 1)
          from rfl] at hw
      refine ih _ _ ?_ w hw
      intro w2 hw2
      exact hinv w2 (watch_mem_useStateStep hooks idx init w2 hw2)
    | hWatch eff deps =>
      rw [show processHooks (HookCall.hWatch eff deps :: rest) hooks idx
          = processHooks rest (useWatchStep hooks idx eff deps) (idx + 1)
          from rfl] at hw
      refine ih _ _ ?_ w hw
      intro w2 hw2
      rcases watch_mem_useWatchStep hooks idx eff deps w2 hw2 with h1 | h2
      · exact hinv w2 h1
      · exact h2
    | hWatchEffect eff =>
      rw [show processHooks (HookCall.hWatchEffect eff :: rest) hooks idx
          = processHooks rest (useWatchEffectStep hooks idx eff) (idx + 1)
          from rfl] at hw
      refine ih _ _ ?_ w hw
      intro w2 hw2
      rcases watch_mem_useWatchEffectStep hooks idx eff w2 hw2 with h1 | h2
      · exact hinv w2 h1
      · exact h2

/-- When no state slot holds `null`/`undefined`, `runEffects` succeeds
and invokes exactly the pending effects, once each, in slot order. -/
theorem runEffectsSlots_effectLog :
    ∀ (hooks : List HookSlot) (d : Dom), hooks.all effectSlotOk = true →
      (runEffectsSlots hooks d).map (fun q => q.2.effectLog)
        = .ok (d.effectLog ++ pendingEffects hooks) := by
  intro hooks
  induction hooks with
  | nil =>
    intro d _
    simp [runEffectsSlots, pendingEffects, Except.map]
  | cons hd rest ih =>
    intro d hall
    rw [List.all_cons, Bool.and_eq_true] at hall
    cases hd with
    | state v =>
      have h0 : ¬ v = .jsNull := by
        intro he
        rw [he] at hall
        exact absurd hall.1 (by decide)
      have h1 : ¬ v = .undef := by
        intro he
        rw [he] at hall
        exact absurd hall.1 (by decide)
      rw [runEffectsSlots, if_neg h0, if_neg h1]
      have hr := ih d hall.2
      rcases hre : runEffectsSlots rest d with e | q
      · rw [hre] at hr
        simp only [Except.map] at hr
        simp at hr
      · rcases q with ⟨r2, d2⟩
        rw [hre] at hr
        simp only [Except.map] at hr ⊢
        rw [show pendingEffects (HookSlot.state v :: rest)
            = pendingEffects rest from rfl]
        exact hr
    | watch w =>
      by_cases hp : w.pending
      · rw [runEffectsSlots]
        simp only [hp, if_true]
        have hpe : pendingEffects (HookSlot.watch w :: rest)
            = w.effect :: pendingEffects rest := by
          rw [pendingEffects, if_pos hp]
        cases hcl : w.cleanup with
        | none =>
          simp only
          have hr := ih { d with effectLog := d.effectLog ++ [w.effect] }
            hall.2
          rcases hre : runEffectsSlots rest
              { d with effectLog := d.effectLog ++ [w.effect] } with e | q
          · rw [hre] at hr
            simp only [Except.map] at hr
            simp at hr
          · rcases q with ⟨r2, d2⟩
            rw [hre] at hr
            simp only [Except.map] at hr ⊢
            rw [hpe]
            have h4 := Except.ok.inj hr
            simp [h4]
        | some c =>
          simp only
          have hr := ih { d with cleanupLog := d.cleanupLog ++ [c],
                                 effectLog := d.effectLog ++ [w.effect] }
            hall.2
          rcases hre : runEffectsSlots rest
              { d with cleanupLog := d.cleanupLog ++ [c],
                       effectLog := d.effectLog ++ [w.effect] } with e | q
          · rw [hre] at hr
            simp only [Except.map] at hr
            simp at hr
          · rcases q with ⟨r2, d2⟩
            rw [hre] at hr
            simp only [Except.map] at hr ⊢
            rw [hpe]
            have h4 := Except.ok.inj hr
            simp [h4]
      · rw [runEffectsSlots]
        simp only [hp, if_false]
        have hpe : pendingEffects (HookSlot.watch w :: rest)
            = pendingEffects rest := by
          rw [pendingEffects, if_neg hp]
        have hr := ih d hall.2
        rcases hre : runEffectsSlots rest d with e | q
        · rw [hre] at hr
          simp only [Except.map] at hr
          simp at hr
        · rcases q with ⟨r2, d2⟩
          rw [hre] at hr
          simp only [Except.map] at hr ⊢
          rw [hpe]
          exact hr

/-- After a successful `runEffects`, no watch slot is pending. -/
theorem runEffectsSlots_pending_false :
    ∀ (hooks : List HookSlot) (d : Dom) (h2 : List HookSlot) (d2 : Dom)
      (w : WatchHook),
      runEffectsSlots hooks d = .ok (h2, d2) →
      HookSlot.watch w ∈ h2 → w.pending = false := by
  intro hooks
  induction hooks with
  | nil =>
    intro d h2 d2 w h hm
    rw [runEffectsSlots] at h
    have h3 := Except.ok.inj h
    rw [Prod.mk.injEq] at h3
    rw [← h3.1] at hm
    exact absurd hm (by simp)
  | cons hd rest ih =>
    intro d h2 d2 w h hm
    cases hd with
    | state v =>
      rw [runEffectsSlots] at h
      by_cases h0 : v = .jsNull
      · rw [if_pos h0] at h
        simp at h
      · rw [if_neg h0] at h
        by_cases h1 : v = .undef
        · rw [if_pos h1] at h
          simp at h
        · rw [if_neg h1] at h
          rcases hre : runEffectsSlots rest d with e | q
          · simp only [hre] at h
            simp at h
          · rcases q with ⟨r2, dd⟩
            simp only [hre] at h
            have h3 := Except.ok.inj h
            rw [Prod.mk.injEq] at h3
            rw [← h3.1] at hm
            rcases List.mem_cons.mp hm with hh | hh
            · exact absurd hh (by simp)
            · exact ih d r2 dd w hre hh
    | watch w2 =>
      by_cases hp : w2.pending
      · rw [runEffectsSlots] at h
        simp only [hp, if_true] at h
        cases hcl : w2.cleanup with
        | none =>
          rw [hcl] at h
          simp only at h
          rcases hre : runEffectsSlots rest
              { d with effectLog := d.effectLog ++ [w2.effect] } with e | q
          · simp only [hre] at h
            simp at h
          · rcases q with ⟨r2, dd⟩
            simp only [hre] at h
            have h3 := Except.ok.inj h
            rw [Prod.mk.injEq] at h3
            rw [← h3.1] at hm
            rcases List.mem_cons.mp hm with hh | hh
            · injection hh with hww
              rw [hww]
            · exact ih { d with effectLog := d.effectLog ++ [w2.effect] }
                r2 dd w hre hh
        | some c =>
          rw [hcl] at h
          simp only at h
          rcases hre : runEffectsSlots rest
              { d with cleanupLog := d.cleanupLog ++ [c],
                       effectLog := d.effectLog ++ [w2.effect] } with e | q
          · simp only [hre] at h
            simp at h
          · rcases q with ⟨r2, dd⟩
            simp only [hre] at h
            have h3 := Except.ok.inj h
            rw [Prod.mk.injEq] at h3
            rw [← h3.1] at hm
            rcases List.mem_cons.mp hm with hh | hh
            · injection hh with hww
              rw [hww]
            · exact ih { d with cleanupLog := d.cleanupLog ++ [c],
                                effectLog := d.effectLog ++ [w2.effect] }
                r2 dd w hre hh
      · rw [runEffectsSlots] at h
        rw [Bool.not_eq_true] at hp
        simp only [hp, Bool.false_eq_true, if_false] at h
        rcases hre : runEffectsSlots rest d with e | q
        · simp only [hre] at h
          simp at h
        · rcases q with ⟨r2, dd⟩
          simp only [hre] at h
          have h3 := Except.ok.inj h
          rw [Prod.mk.injEq] at h3
          rw [← h3.1] at hm
          rcases List.mem_cons.mp hm with hh | hh
          · injection hh with hww
            rw [hww]
            exact hp
          · exact ih d r2 dd w hre hh

/-- C6: `renderToString` never invokes an effect body or cleanup — the
effect-observation state is returned untouched for every component tree
— and every effect slot it records stays pending; by contrast, the DOM
backend's per-render-pass `runEffects` invokes exactly the pending
effects once each (appending them to the observation log, and faulting
rather than skipping when a state slot holds `null`/`undefined`) and
clears the pending flag of every slot it returns. -/
theorem ssr_records_but_never_runs_effects :
    (∀ fuel c s out s2,
       ssrToString fuel c s = .ok (out, s2) → s2 = s) ∧
    (∀ calls w, HookSlot.watch w ∈ processHooks calls [] 0 →
       w.pending = true) ∧
    (∀ hooks d, hooks.all effectSlotOk = true →
       (runEffectsSlots hooks d).map (fun q => q.2.effectLog)
         = .ok (d.effectLog ++ pendingEffects hooks)) ∧
    (∀ hooks d h2 d2 w, runEffectsSlots hooks d = .ok (h2, d2) →
       HookSlot.watch w ∈ h2 → w.pending = false) := by
  refine ⟨ssrToString_state, ?_, runEffectsSlots_effectLog, ?_⟩
  · intro calls w hw
    exact processHooks_pending_invariant calls [] 0 (by simp) w hw
  · intro hooks d h2 d2 w hre hm
    exact runEffectsSlots_pending_false hooks d h2 d2 w hre hm

/-- C6 witness: a concrete SSR render that records a watch slot leaves
the observation state untouched, while the DOM `runEffects` on the slot
it would record appends the effect invocation. -/
theorem ssr_records_but_never_runs_effects_witness :
    ssrToString 3 (.comp (.generic 0 .undef [.hWatch 4 [.num 1]]
        (.str "x"))) ⟨[], []⟩ = .ok ("x", ⟨[], []⟩) ∧
    ((⟨[], []⟩ : SSRState) = ⟨[], []⟩) ∧
    (runEffectsSlots [.watch ⟨some [.num 1], 4, none, true⟩] Dom.empty).map
        (fun q => q.2.effectLog)
      = .ok (Dom.empty.effectLog
          ++ pendingEffects [.watch ⟨some [.num 1], 4, none, true⟩]) :=
  ⟨rfl,
   ssr_records_but_never_runs_effects.1 3
     (.comp (.generic 0 .undef [.hWatch 4 [.num 1]] (.str "x")))
     ⟨[], []⟩ "x" ⟨[], []⟩ rfl,
   ssr_records_but_never_runs_effects.2.2.1
     [.watch ⟨some [.num 1], 4, none, true⟩] Dom.empty rfl⟩

end Breact
